import Mathlib

/-!
Verification of `scripts/cleanup_requires_project.py`, a one-shot data
migration script.  The script reads JSON documents from a table, strips
every object entry whose key is exactly `requiresProject` (recursively, at
any depth, including inside arrays), writes back only rows whose canonical
serialization changed, and finally counts rows whose serialized document
still textually contains the target field name.

The JSON-like domain is embedded as the inductive type `Json`; the
transformer `clean_configuration_data`, the serializers (`json.dumps` with
and without `sort_keys=True`), the per-row reconciliation loop and the
verification count are translated from the source.
-/

/-- JSON-like tree: an object (ordered list of string-keyed entries, as a
Python `dict` preserves insertion order), an array, or a scalar (string,
integer number, boolean, null). -/
inductive Json where
  | obj : List (String × Json) → Json
  | arr : List Json → Json
  | str : String → Json
  | num : Int → Json
  | bool : Bool → Json
  | null : Json
deriving Repr

mutual

/-- The transformer `clean_configuration_data` (source lines 16-30): remove `requiresProject`
fields from configuration data recursively.  Dict case: rebuild the dict,
skipping entries whose key equals `requiresProject` and cleaning the values
of the remaining entries; list case: clean each item; otherwise return the
value unchanged. -/
def clean_configuration_data : Json → Json
  | Json.obj fields => Json.obj (cleanFields fields)
  | Json.arr items => Json.arr (cleanItems items)
  | t => t

/-- The dict comprehension of `clean_configuration_data`, entry by entry. -/
def cleanFields : List (String × Json) → List (String × Json)
  | [] => []
  | (k, v) :: rest =>
    if k = "requiresProject" then cleanFields rest
    else (k, clean_configuration_data v) :: cleanFields rest

/-- The list comprehension of `clean_configuration_data`, item by item. -/
def cleanItems : List Json → List Json
  | [] => []
  | v :: rest => clean_configuration_data v :: cleanItems rest

end

/-! ### Serialization (`json.dumps`)

`json.dumps` with default options: separators `", "` and `": "`,
`ensure_ascii=True` (non-ASCII characters become `\uXXXX` escapes), the
standard two-character escapes for quote, backslash and common control
characters, and `\u00XX` for the remaining control characters. -/

/-- Lower-case hexadecimal digit, as Python emits in `\uXXXX` escapes. -/
def hexDigitChar (n : Nat) : Char :=
  if n < 10 then Char.ofNat (48 + n) else Char.ofNat (87 + n)

/-- A `\uXXXX` escape group for a code unit `n < 0x10000`. -/
def uEscape (n : Nat) : List Char :=
  ['\\', 'u', hexDigitChar (n / 4096 % 16), hexDigitChar (n / 256 % 16),
   hexDigitChar (n / 16 % 16), hexDigitChar (n % 16)]

/-- How `json.dumps` renders one character of a string (with
`ensure_ascii=True`): two-character escapes for `"` `\` and the usual
control characters, `\u00XX` for other control characters, the character
itself for printable ASCII, and `\uXXXX` escapes (a surrogate pair beyond
the BMP) for non-ASCII characters. -/
def escapeChar (c : Char) : List Char :=
  if c = '"' then ['\\', '"']
  else if c = '\\' then ['\\', '\\']
  else if c = '\n' then ['\\', 'n']
  else if c = '\t' then ['\\', 't']
  else if c = '\r' then ['\\', 'r']
  else if c.toNat = 8 then ['\\', 'b']
  else if c.toNat = 12 then ['\\', 'f']
  else if c.toNat < 32 then uEscape c.toNat
  else if c.toNat < 127 then [c]
  else if c.toNat < 65536 then uEscape c.toNat
  else uEscape (55296 + (c.toNat - 65536) / 1024) ++ uEscape (56320 + (c.toNat - 65536) % 1024)

/-- JSON string-body escaping, character by character. -/
def escapeString (s : String) : String :=
  String.mk (s.toList.flatMap escapeChar)

mutual

/-- Serialization `json.dumps(t)` with the default separators: objects as
`\x7b"k": v, ...\x7d` in entry order, arrays as `[v, ...]`, strings quoted
and escaped, integers in decimal, `true`/`false`/`null`. -/
def dumps : Json → String
  | Json.obj fields => "\x7b" ++ dumpsFields fields ++ "\x7d"
  | Json.arr items => "[" ++ dumpsItems items ++ "]"
  | Json.str s => "\"" ++ escapeString s ++ "\""
  | Json.num n => toString n
  | Json.bool b => if b then "true" else "false"
  | Json.null => "null"

/-- Object entries rendered `"key": value`, joined by `", "`. -/
def dumpsFields : List (String × Json) → String
  | [] => ""
  | [(k, v)] => "\"" ++ escapeString k ++ "\": " ++ dumps v
  | (k, v) :: rest => "\"" ++ escapeString k ++ "\": " ++ dumps v ++ ", " ++ dumpsFields rest

/-- Array items joined by `", "`. -/
def dumpsItems : List Json → String
  | [] => ""
  | [v] => dumps v
  | v :: rest => dumps v ++ ", " ++ dumpsItems rest

end

/-- Code-point lexicographic order on character lists: how Python compares
strings when sorting keys. -/
def charListLe : List Char → List Char → Bool
  | [], _ => true
  | _ :: _, [] => false
  | c :: cs, d :: ds =>
    if c.toNat < d.toNat then true
    else if d.toNat < c.toNat then false
    else charListLe cs ds

/-- String comparison `a <= b`, by code points. -/
def keyLe (a b : String) : Bool :=
  charListLe a.toList b.toList

/-- Insert an entry into a key-sorted entry list (ascending key order). -/
def insertField (p : String × Json) : List (String × Json) → List (String × Json)
  | [] => [p]
  | q :: rest => if keyLe p.1 q.1 then p :: q :: rest else q :: insertField p rest

/-- Sort an object's entries by key (insertion sort), as `sort_keys=True`
orders the keys of each object during serialization. -/
def sortFields : List (String × Json) → List (String × Json)
  | [] => []
  | p :: rest => insertField p (sortFields rest)

mutual

/-- Recursively sort every object's entries by key, so that serializing the
result in entry order is exactly `json.dumps(t, sort_keys=True)`. -/
def sortJson : Json → Json
  | Json.obj fields => Json.obj (sortFields (sortJsonFields fields))
  | Json.arr items => Json.arr (sortJsonItems items)
  | t => t

/-- Mapping `sortJson` over each entry's value. -/
def sortJsonFields : List (String × Json) → List (String × Json)
  | [] => []
  | (k, v) :: rest => (k, sortJson v) :: sortJsonFields rest

/-- Mapping `sortJson` over each array item. -/
def sortJsonItems : List Json → List Json
  | [] => []
  | v :: rest => sortJson v :: sortJsonItems rest

end

/-- Canonical serialization `json.dumps(t, sort_keys=True)`, used by the
script to decide whether a row changed (source lines 60-61). -/
def dumpsSorted (t : Json) : String :=
  dumps (sortJson t)

/-! ### The per-row reconciliation loop (`main`, source lines 51-74) -/

/-- One row of `sidebar_configurations` as fetched by the script:
`SELECT id, name, configuration_data`. -/
structure ConfigRow where
  id : String
  name : String
  configuration_data : Json
deriving Repr

/-- A SQL statement issued by the loop: `UPDATE sidebar_configurations SET
configuration_data = %s, updated_at = now() WHERE id = %s`, carrying the
serialized cleaned document (`json.dumps(cleaned_data)`, insertion order)
and the row id. -/
inductive Effect where
  | update : String → String → Effect
deriving Repr

/-- The per-row console report: `✅ Updated configuration` versus
`⏩ No changes needed`, each with the row's name and id. -/
inductive RowReport where
  | updated : String → String → RowReport
  | unchanged : String → String → RowReport
deriving Repr

/-- The loop body of `main` over all fetched rows (source lines 49-74):
clean each row's document, compare `json.dumps(..., sort_keys=True)` of the
original and the cleaned tree as text, and if they differ issue one UPDATE
and count the row as updated, otherwise do nothing to the row and report it
as unchanged.  Returns `updated_count`, the issued statements in order, and
the per-row reports in order. -/
def processConfigurations : List ConfigRow → Nat × List Effect × List RowReport
  | [] => (0, [], [])
  | config :: rest =>
    let cleaned_data := clean_configuration_data config.configuration_data
    let original_str := dumpsSorted config.configuration_data
    let cleaned_str := dumpsSorted cleaned_data
    let r := processConfigurations rest
    if original_str ≠ cleaned_str then
      (r.1 + 1, Effect.update config.id (dumps cleaned_data) :: r.2.1,
       RowReport.updated config.name config.id :: r.2.2)
    else
      (r.1, r.2.1, RowReport.unchanged config.name config.id :: r.2.2)

mutual

/-- Whether some object node of the tree has an entry whose key is exactly
`requiresProject` — the occurrences the cleanup removes. -/
def mentionsTarget : Json → Bool
  | Json.obj fields => mentionsTargetFields fields
  | Json.arr items => mentionsTargetItems items
  | _ => false

/-- Predicate `mentionsTarget` over an object's entries: a key equal to the target, or
an occurrence inside a value. -/
def mentionsTargetFields : List (String × Json) → Bool
  | [] => false
  | (k, v) :: rest =>
    decide (k = "requiresProject") || mentionsTarget v || mentionsTargetFields rest

/-- Predicate `mentionsTarget` over an array's items. -/
def mentionsTargetItems : List Json → Bool
  | [] => false
  | v :: rest => mentionsTarget v || mentionsTargetItems rest

end

/-! ### The verification query (`main`, source lines 82-92)

`SELECT count(*) FROM sidebar_configurations WHERE configuration_data::text
LIKE '%requiresProject%'`: it counts rows whose *serialized* document
contains the target field name as a substring, wherever that text occurs. -/

/-- Whether `p` occurs as a prefix of `l`. -/
def startsWithChars : List Char → List Char → Bool
  | [], _ => true
  | _ :: _, [] => false
  | c :: p, d :: l => decide (c = d) && startsWithChars p l

/-- Whether `p` occurs as a contiguous substring of `l`. -/
def hasSub (p : List Char) : List Char → Bool
  | [] => startsWithChars p []
  | c :: rest => startsWithChars p (c :: rest) || hasSub p rest

/-- The test `LIKE '%requiresProject%'` on a serialized document. -/
def containsTarget (s : String) : Bool :=
  hasSub "requiresProject".toList s.toList

/-- The verification count over a store: the number of rows whose serialized
document contains the literal text `requiresProject`. -/
def verificationCount (rows : List ConfigRow) : Nat :=
  (rows.filter (fun r => containsTarget (dumps r.configuration_data))).length

/-! ### Exit behaviour (`main`, source lines 32-113)

`main` wraps the whole run in one `try`; any exception reaches the single
`except` clause, which prints the error and calls `sys.exit(1)`; on the
normal path no exit call is made and the process ends with code 0, the
verification count only selecting between a success line and a warning
line.  The interactions with the database are modelled as an environment of
fallible operations. -/

/-- The outcomes the database hands the script: each operation either
returns a value or raises an exception (carried as its message). -/
structure DBWorld where
  fetchRows : Except String (List ConfigRow)
  updateRow : String → String → Except String Unit
  commitTx : Except String Unit
  verifyLeftover : Except String Nat
  sampleRow : Except String (Option Json)

/-- The row loop when each UPDATE may raise: the first failing statement
aborts the remaining sequence (there is no per-row recovery in the script).
Returns `updated_count` and the statements that were issued. -/
def runUpdates (upd : String → String → Except String Unit) :
    List ConfigRow → Except String (Nat × List Effect)
  | [] => Except.ok (0, [])
  | config :: rest =>
    let cleaned_data := clean_configuration_data config.configuration_data
    if dumpsSorted config.configuration_data ≠ dumpsSorted cleaned_data then
      match upd config.id (dumps cleaned_data) with
      | Except.error e => Except.error e
      | Except.ok _ =>
        match runUpdates upd rest with
        | Except.error e => Except.error e
        | Except.ok r => Except.ok (r.1 + 1, Effect.update config.id (dumps cleaned_data) :: r.2)
    else runUpdates upd rest

/-- The body of `main`'s `try` block: fetch, reconcile every row, commit
once, run the verification count, fetch the sample row; the first exception
anywhere propagates out.  On success it carries `updated_count` and the
verification count. -/
def mainResult (w : DBWorld) : Except String (Nat × Nat) :=
  match w.fetchRows with
  | Except.error e => Except.error e
  | Except.ok configurations =>
    match runUpdates w.updateRow configurations with
    | Except.error e => Except.error e
    | Except.ok r =>
      match w.commitTx with
      | Except.error e => Except.error e
      | Except.ok _ =>
        match w.verifyLeftover with
        | Except.error e => Except.error e
        | Except.ok remaining =>
          match w.sampleRow with
          | Except.error e => Except.error e
          | Except.ok _ => Except.ok (r.1, remaining)

/-- The process exit code: 0 when the `try` block completes (whatever the
verification count), 1 via `sys.exit(1)` from the `except` clause when any
exception was raised. -/
def exitCode (w : DBWorld) : Nat :=
  match mainResult w with
  | Except.ok _ => 0
  | Except.error _ => 1

/-! ### Observing tree structure -/

/-- The JSON node kinds (`dict`, `list`, `str`, number, `bool`, `None`). -/
inductive JsonKind where
  | object | array | string | number | boolean | nullKind
deriving DecidableEq, Repr

/-- The kind of a node. -/
def Json.kind : Json → JsonKind
  | Json.obj _ => JsonKind.object
  | Json.arr _ => JsonKind.array
  | Json.str _ => JsonKind.string
  | Json.num _ => JsonKind.number
  | Json.bool _ => JsonKind.boolean
  | Json.null => JsonKind.nullKind

/-- Scalar nodes: neither objects nor arrays. -/
def Json.isScalar : Json → Bool
  | Json.obj _ => false
  | Json.arr _ => false
  | _ => true

/-- Occurrence relation `Subtree u t`: the node `u` occurs somewhere in the tree `t` — `t`
itself, or (recursively) inside the value of one of `t`'s object entries or
one of `t`'s array items. -/
inductive Subtree : Json → Json → Prop where
  | refl {t : Json} : Subtree t t
  | objMem {u v : Json} {k : String} {fields : List (String × Json)} :
      (k, v) ∈ fields → Subtree u v → Subtree u (Json.obj fields)
  | arrMem {u v : Json} {items : List Json} :
      v ∈ items → Subtree u v → Subtree u (Json.arr items)

/-! ### A fuel-indexed variant of the transformer

`cleanFuel` performs the same recursion as `clean_configuration_data` but
consumes one unit of fuel per tree level and fails (`none`) when the fuel
runs out; that any tree is fully processed with fuel equal to its height
expresses that the recursion terminates and returns a value on every
JSON-like input. -/

mutual

/-- Tree height: the number of nested levels. -/
def Json.height : Json → Nat
  | Json.obj fields => heightFields fields + 1
  | Json.arr items => heightItems items + 1
  | _ => 1

/-- Greatest height among an object's entry values. -/
def heightFields : List (String × Json) → Nat
  | [] => 0
  | (_, v) :: rest => max (Json.height v) (heightFields rest)

/-- Greatest height among an array's items. -/
def heightItems : List Json → Nat
  | [] => 0
  | v :: rest => max (Json.height v) (heightItems rest)

end

mutual

/-- The transformer `clean_configuration_data` with an explicit recursion budget. -/
def cleanFuel : Nat → Json → Option Json
  | 0, _ => none
  | fuel + 1, Json.obj fields => Option.map Json.obj (cleanFieldsFuel fuel fields)
  | fuel + 1, Json.arr items => Option.map Json.arr (cleanItemsFuel fuel items)
  | _ + 1, t => some t

/-- Fuel-indexed `cleanFields`. -/
def cleanFieldsFuel (fuel : Nat) : List (String × Json) → Option (List (String × Json))
  | [] => some []
  | (k, v) :: rest =>
    if k = "requiresProject" then cleanFieldsFuel fuel rest
    else
      match cleanFuel fuel v, cleanFieldsFuel fuel rest with
      | some v2, some rest2 => some ((k, v2) :: rest2)
      | _, _ => none

/-- Fuel-indexed `cleanItems`. -/
def cleanItemsFuel (fuel : Nat) : List Json → Option (List Json)
  | [] => some []
  | v :: rest =>
    match cleanFuel fuel v, cleanItemsFuel fuel rest with
    | some v2, some rest2 => some (v2 :: rest2)
    | _, _ => none

end

/-! ### Concrete inputs used to instantiate the theorems -/

/-- The end-to-end scenario A document:
`\x7b"sections":[\x7b"items":[\x7b"id":1,"requiresProject":true,"label":"X"\x7d]\x7d]\x7d`. -/
def inputA : Json :=
  Json.obj [("sections", Json.arr [Json.obj [("items",
    Json.arr [Json.obj [("id", Json.num 1), ("requiresProject", Json.bool true),
      ("label", Json.str "X")]])]])]

/-- A document with one target field and one other field. -/
def inputSmall : Json :=
  Json.obj [("requiresProject", Json.bool true), ("a", Json.null)]

/-- A document with no `requiresProject` key anywhere. -/
def inputUntouched : Json :=
  Json.obj [("sections", Json.arr [Json.obj [("items", Json.arr [])]])]

/-- A document already in the image of the cleanup (no `requiresProject`
key), whose serialization nevertheless contains the text
`requiresProject` inside a string value. -/
def cexDoc : Json :=
  Json.obj [("label", Json.str "requiresProject")]

/-- A database world where everything succeeds, no row needs an update, and
the verification query still reports 3 leftover rows. -/
def worldOkLeftover : DBWorld :=
  ⟨Except.ok [⟨"id-b", "B", inputUntouched⟩], fun _ _ => Except.ok (),
   Except.ok (), Except.ok 3, Except.ok none⟩

/-- A database world where the UPDATE for the one row that needs one raises
a SQL error. -/
def worldFailUpdate : DBWorld :=
  ⟨Except.ok [⟨"id-s", "S", inputSmall⟩], fun _ _ => Except.error "SQL error",
   Except.ok (), Except.ok 0, Except.ok none⟩

/-! ### Auxiliary lemmas -/

theorem cleanItems_eq_map (items : List Json) :
    cleanItems items = items.map clean_configuration_data := by
  induction items with
  | nil => rfl
  | cons v rest ih => simp [cleanItems, ih]

theorem keys_cleanFields (fs : List (String × Json)) :
    (cleanFields fs).map Prod.fst =
      (fs.map Prod.fst).filter (fun k => decide (k ≠ "requiresProject")) := by
  induction fs with
  | nil => rfl
  | cons p rest ih =>
    obtain ⟨k, v⟩ := p
    by_cases hk : k = "requiresProject"
    · simp [cleanFields, hk, ih]
    · simp [cleanFields, hk, ih]

theorem mem_cleanFields_elim (fs : List (String × Json)) (k : String) (x : Json)
    (h : (k, x) ∈ cleanFields fs) :
    ∃ y, (k, y) ∈ fs ∧ x = clean_configuration_data y := by
  induction fs with
  | nil => simp [cleanFields] at h
  | cons p rest ih =>
    obtain ⟨k2, v2⟩ := p
    by_cases hk : k2 = "requiresProject"
    · simp only [cleanFields, if_pos hk] at h
      obtain ⟨y, hy, hx⟩ := ih h
      exact ⟨y, List.mem_cons_of_mem _ hy, hx⟩
    · simp only [cleanFields, if_neg hk, List.mem_cons] at h
      rcases h with h | h
      · obtain ⟨h1, h2⟩ := Prod.mk.injEq .. ▸ h
        exact ⟨v2, by simp [h1], h2⟩
      · obtain ⟨y, hy, hx⟩ := ih h
        exact ⟨y, List.mem_cons_of_mem _ hy, hx⟩

theorem mem_cleanItems_elim (items : List Json) (x : Json)
    (h : x ∈ cleanItems items) :
    ∃ y, y ∈ items ∧ x = clean_configuration_data y := by
  induction items with
  | nil => simp [cleanItems] at h
  | cons v rest ih =>
    simp only [cleanItems, List.mem_cons] at h
    rcases h with h | h
    · exact ⟨v, List.mem_cons_self v rest, h⟩
    · obtain ⟨y, hy, hx⟩ := ih h
      exact ⟨y, List.mem_cons_of_mem _ hy, hx⟩

theorem mem_cleanFields_intro (fs : List (String × Json)) (k : String) (v : Json)
    (hmem : (k, v) ∈ fs) (hne : k ≠ "requiresProject") :
    (k, clean_configuration_data v) ∈ cleanFields fs := by
  induction fs with
  | nil => simp at hmem
  | cons p rest ih =>
    obtain ⟨k2, v2⟩ := p
    rcases List.mem_cons.mp hmem with h | h
    · obtain ⟨h1, h2⟩ := Prod.mk.injEq .. ▸ h
      subst h1; subst h2
      simp [cleanFields, if_neg hne]
    · by_cases hk : k2 = "requiresProject"
      · simpa [cleanFields, if_pos hk] using ih h
      · simp [cleanFields, if_neg hk]
        exact Or.inr (ih h)

theorem kind_clean (t : Json) :
    (clean_configuration_data t).kind = t.kind := by
  cases t <;> rfl

theorem clean_scalar (t : Json) (h : t.isScalar = true) :
    clean_configuration_data t = t := by
  cases t <;> first | rfl | simp [Json.isScalar] at h

mutual

theorem clean_idem_tree : ∀ t : Json,
    clean_configuration_data (clean_configuration_data t) = clean_configuration_data t
  | Json.obj fields => by
    simp [clean_configuration_data, clean_idem_fields fields]
  | Json.arr items => by
    simp [clean_configuration_data, clean_idem_items items]
  | Json.str _ => rfl
  | Json.num _ => rfl
  | Json.bool _ => rfl
  | Json.null => rfl

theorem clean_idem_fields : ∀ fs : List (String × Json),
    cleanFields (cleanFields fs) = cleanFields fs
  | [] => rfl
  | (k, v) :: rest => by
    by_cases hk : k = "requiresProject"
    · simp [cleanFields, hk, clean_idem_fields rest]
    · simp [cleanFields, hk, clean_idem_fields rest, clean_idem_tree v]

theorem clean_idem_items : ∀ items : List Json,
    cleanItems (cleanItems items) = cleanItems items
  | [] => rfl
  | v :: rest => by
    simp [cleanItems, clean_idem_items rest, clean_idem_tree v]

end

mutual

theorem clean_noop_tree : ∀ t : Json, mentionsTarget t = false →
    clean_configuration_data t = t
  | Json.obj fields => fun h => by
    simp only [mentionsTarget] at h
    simp [clean_configuration_data, clean_noop_fields fields h]
  | Json.arr items => fun h => by
    simp only [mentionsTarget] at h
    simp [clean_configuration_data, clean_noop_items items h]
  | Json.str _ => fun _ => rfl
  | Json.num _ => fun _ => rfl
  | Json.bool _ => fun _ => rfl
  | Json.null => fun _ => rfl

theorem clean_noop_fields : ∀ fs : List (String × Json), mentionsTargetFields fs = false →
    cleanFields fs = fs
  | [] => fun _ => rfl
  | (k, v) :: rest => fun h => by
    simp only [mentionsTargetFields, Bool.or_eq_false_iff, decide_eq_false_iff_not] at h
    obtain ⟨⟨hk, hv⟩, hrest⟩ := h
    simp [cleanFields, hk, clean_noop_tree v hv, clean_noop_fields rest hrest]

theorem clean_noop_items : ∀ items : List Json, mentionsTargetItems items = false →
    cleanItems items = items
  | [] => fun _ => rfl
  | v :: rest => fun h => by
    simp only [mentionsTargetItems, Bool.or_eq_false_iff] at h
    obtain ⟨hv, hrest⟩ := h
    simp [cleanItems, clean_noop_tree v hv, clean_noop_items rest hrest]

end

mutual

theorem cleanFuel_height : ∀ (fuel : Nat) (t : Json), Json.height t ≤ fuel →
    cleanFuel fuel t = some (clean_configuration_data t)
  | 0, t => fun h => by cases t <;> simp [Json.height] at h
  | fuel + 1, Json.obj fields => fun h => by
    have hf : heightFields fields ≤ fuel := by
      simpa [Json.height] using Nat.lt_succ_iff.mp (Nat.lt_of_lt_of_le (Nat.lt_succ_self _)
        (by simpa [Json.height] using h))
    simp [cleanFuel, clean_configuration_data, cleanFieldsFuel_height fuel fields hf]
  | fuel + 1, Json.arr items => fun h => by
    have hf : heightItems items ≤ fuel := by
      simpa [Json.height] using Nat.lt_succ_iff.mp (Nat.lt_of_lt_of_le (Nat.lt_succ_self _)
        (by simpa [Json.height] using h))
    simp [cleanFuel, clean_configuration_data, cleanItemsFuel_height fuel items hf]
  | _ + 1, Json.str _ => fun _ => rfl
  | _ + 1, Json.num _ => fun _ => rfl
  | _ + 1, Json.bool _ => fun _ => rfl
  | _ + 1, Json.null => fun _ => rfl

theorem cleanFieldsFuel_height : ∀ (fuel : Nat) (fs : List (String × Json)),
    heightFields fs ≤ fuel → cleanFieldsFuel fuel fs = some (cleanFields fs)
  | _, [] => fun _ => rfl
  | fuel, (k, v) :: rest => fun h => by
    simp only [heightFields, Nat.max_le] at h
    obtain ⟨hv, hrest⟩ := h
    by_cases hk : k = "requiresProject"
    · simp [cleanFieldsFuel, cleanFields, hk, cleanFieldsFuel_height fuel rest hrest]
    · simp [cleanFieldsFuel, cleanFields, hk, cleanFieldsFuel_height fuel rest hrest,
        cleanFuel_height fuel v hv]

theorem cleanItemsFuel_height : ∀ (fuel : Nat) (items : List Json),
    heightItems items ≤ fuel → cleanItemsFuel fuel items = some (cleanItems items)
  | _, [] => fun _ => rfl
  | fuel, v :: rest => fun h => by
    simp only [heightItems, Nat.max_le] at h
    obtain ⟨hv, hrest⟩ := h
    simp [cleanItemsFuel, cleanItems, cleanItemsFuel_height fuel rest hrest,
      cleanFuel_height fuel v hv]

end

theorem subtree_clean_elim (u w : Json) (h : Subtree u w) :
    ∀ t : Json, w = clean_configuration_data t →
      ∃ v, Subtree v t ∧ u = clean_configuration_data v := by
  induction h with
  | refl =>
    intro t ht
    exact ⟨t, Subtree.refl, ht⟩
  | objMem hmem _ ih =>
    intro t ht
    cases t with
    | obj g =>
      simp only [clean_configuration_data, Json.obj.injEq] at ht
      subst ht
      obtain ⟨y, hy, hcy⟩ := mem_cleanFields_elim g _ _ hmem
      obtain ⟨v2, hv2, hu⟩ := ih y hcy
      exact ⟨v2, Subtree.objMem hy hv2, hu⟩
    | arr items => simp [clean_configuration_data] at ht
    | str s => simp [clean_configuration_data] at ht
    | num n => simp [clean_configuration_data] at ht
    | bool b => simp [clean_configuration_data] at ht
    | null => simp [clean_configuration_data] at ht
  | arrMem hmem _ ih =>
    intro t ht
    cases t with
    | arr items =>
      simp only [clean_configuration_data, Json.arr.injEq] at ht
      subst ht
      obtain ⟨y, hy, hcy⟩ := mem_cleanItems_elim items _ hmem
      obtain ⟨v2, hv2, hu⟩ := ih y hcy
      exact ⟨v2, Subtree.arrMem hy hv2, hu⟩
    | obj g => simp [clean_configuration_data] at ht
    | str s => simp [clean_configuration_data] at ht
    | num n => simp [clean_configuration_data] at ht
    | bool b => simp [clean_configuration_data] at ht
    | null => simp [clean_configuration_data] at ht

/-! ### Claims -/

/-- C1: for every JSON-like tree and every object node in the result of the
strip transformation, the output object's key list equals the corresponding
input object node's key list with `requiresProject` removed (hence the key
sets agree minus that key), at every nesting depth, including objects
inside arrays. -/
theorem strip_object_keys (t : Json) (fields : List (String × Json))
    (h : Subtree (Json.obj fields) (clean_configuration_data t)) :
    ∃ g, Subtree (Json.obj g) t ∧
      Json.obj fields = clean_configuration_data (Json.obj g) ∧
      fields.map Prod.fst =
        (g.map Prod.fst).filter (fun k => decide (k ≠ "requiresProject")) := by
  obtain ⟨v, hv, he⟩ := subtree_clean_elim _ _ h t rfl
  cases v with
  | obj g =>
    refine ⟨g, hv, he, ?_⟩
    simp only [clean_configuration_data, Json.obj.injEq] at he
    rw [he]
    exact keys_cleanFields g
  | arr items => simp [clean_configuration_data] at he
  | str s => simp [clean_configuration_data] at he
  | num n => simp [clean_configuration_data] at he
  | bool b => simp [clean_configuration_data] at he
  | null => simp [clean_configuration_data] at he

/-- Witness for C1 at `inputSmall`: the cleaned root object keeps exactly
the key list `["a"]`. -/
theorem strip_object_keys_witness :
    ∃ g, Subtree (Json.obj g) inputSmall ∧
      Json.obj [("a", Json.null)] = clean_configuration_data (Json.obj g) ∧
      ([("a", Json.null)] : List (String × Json)).map Prod.fst =
        (g.map Prod.fst).filter (fun k => decide (k ≠ "requiresProject")) :=
  strip_object_keys inputSmall [("a", Json.null)] Subtree.refl

/-- C2: the strip transformation changes no retained node's kind (every node
of the output is the cleaning of a node of the input, of the same kind),
rebuilds every array as the element-wise cleaning — same length, same
order — and returns every scalar node unchanged. -/
theorem strip_preserves_structure (t u : Json) (items : List Json) (s : Json)
    (h : Subtree u (clean_configuration_data t)) (hs : s.isScalar = true) :
    (∃ v, Subtree v t ∧ u.kind = v.kind ∧ u = clean_configuration_data v) ∧
    clean_configuration_data (Json.arr items) =
      Json.arr (items.map clean_configuration_data) ∧
    clean_configuration_data s = s := by
  refine ⟨?_, ?_, clean_scalar s hs⟩
  · obtain ⟨v, hv, he⟩ := subtree_clean_elim u _ h t rfl
    exact ⟨v, hv, by rw [he]; exact kind_clean v, he⟩
  · simp [clean_configuration_data, cleanItems_eq_map]

/-- Witness for C2 at a concrete tree, array and scalar. -/
theorem strip_preserves_structure_witness :
    (∃ v, Subtree v inputSmall ∧ (Json.obj [("a", Json.null)]).kind = v.kind ∧
      Json.obj [("a", Json.null)] = clean_configuration_data v) ∧
    clean_configuration_data (Json.arr [Json.bool false]) =
      Json.arr ([Json.bool false].map clean_configuration_data) ∧
    clean_configuration_data (Json.str "X") = Json.str "X" :=
  strip_preserves_structure inputSmall (Json.obj [("a", Json.null)])
    [Json.bool false] (Json.str "X") Subtree.refl rfl

/-- C3: the strip transformation is idempotent — cleaning a cleaned tree
changes nothing. -/
theorem strip_idempotent (t : Json) :
    clean_configuration_data (clean_configuration_data t) =
      clean_configuration_data t :=
  clean_idem_tree t

/-- C4: each record issues an UPDATE (new serialized document and refreshed
`updated_at`, keyed by id) exactly when the canonical serializations of the
original and the cleaned tree differ as text; when they are equal the row
is left untouched and reported as unchanged, not updated; and a document
with no `requiresProject` key anywhere is returned identical by the
transformation, so no write is issued for it. -/
theorem reconcile_update_iff (config : ConfigRow) (rest : List ConfigRow) :
    (dumpsSorted config.configuration_data ≠
        dumpsSorted (clean_configuration_data config.configuration_data) →
      processConfigurations (config :: rest) =
        ((processConfigurations rest).1 + 1,
         Effect.update config.id
             (dumps (clean_configuration_data config.configuration_data)) ::
           (processConfigurations rest).2.1,
         RowReport.updated config.name config.id :: (processConfigurations rest).2.2)) ∧
    (dumpsSorted config.configuration_data =
        dumpsSorted (clean_configuration_data config.configuration_data) →
      processConfigurations (config :: rest) =
        ((processConfigurations rest).1, (processConfigurations rest).2.1,
         RowReport.unchanged config.name config.id :: (processConfigurations rest).2.2)) ∧
    (mentionsTarget config.configuration_data = false →
      clean_configuration_data config.configuration_data = config.configuration_data ∧
      processConfigurations (config :: rest) =
        ((processConfigurations rest).1, (processConfigurations rest).2.1,
         RowReport.unchanged config.name config.id :: (processConfigurations rest).2.2)) := by
  refine ⟨fun hne => ?_, fun heq => ?_, fun hno => ?_⟩
  · simp [processConfigurations, if_pos hne]
  · simp [processConfigurations, heq]
  · have hid := clean_noop_tree config.configuration_data hno
    refine ⟨hid, ?_⟩
    simp [processConfigurations, hid]

/-- Witness for C4: a row whose document holds a `requiresProject` key is
updated and counted; a row whose document does not is skipped, with no
statement issued. -/
theorem reconcile_update_iff_witness :
    processConfigurations [⟨"id-s", "S", inputSmall⟩] =
      (1, [Effect.update "id-s" (dumps (clean_configuration_data inputSmall))],
       [RowReport.updated "S" "id-s"]) ∧
    processConfigurations [⟨"id-b", "B", inputUntouched⟩] =
      (0, [], [RowReport.unchanged "B" "id-b"]) :=
  ⟨(reconcile_update_iff ⟨"id-s", "S", inputSmall⟩ []).1 (by decide),
   ((reconcile_update_iff ⟨"id-b", "B", inputUntouched⟩ []).2.2 (by decide)).2⟩

/-- C5 counterexample: `cexDoc` is its own cleaning — a store holding only
cleaned documents — yet the verification query counts it, because the text
`requiresProject` occurs inside a retained string value; the count is 1,
not 0. -/
theorem verification_cleaned_counterexample :
    clean_configuration_data cexDoc = cexDoc ∧
    verificationCount [⟨"c1", "cfg", cexDoc⟩] = 1 :=
  ⟨rfl, rfl⟩

/-- C5 amended: the verification count is 0 exactly when no row's
serialized document contains the text `requiresProject`; that every
document is cleaned does not by itself bound the count, since the target
text can survive inside string values or inside longer keys. -/
theorem verification_zero_iff (rows : List ConfigRow) :
    verificationCount rows = 0 ↔
      ∀ r ∈ rows, containsTarget (dumps r.configuration_data) = false := by
  simp [verificationCount, List.length_eq_zero, List.filter_eq_nil_iff]

/-- C6: scenario A — cleaning the sample document drops exactly the
`requiresProject` entry of the inner item, and the loop counts the row as
updated, issuing its UPDATE. -/
theorem scenario_a_updated :
    clean_configuration_data inputA =
      Json.obj [("sections", Json.arr [Json.obj [("items",
        Json.arr [Json.obj [("id", Json.num 1), ("label", Json.str "X")]])]])] ∧
    processConfigurations [⟨"id-a", "default", inputA⟩] =
      (1, [Effect.update "id-a" (dumps (clean_configuration_data inputA))],
       [RowReport.updated "default" "id-a"]) :=
  ⟨rfl, rfl⟩

/-- C7: scenario C — when the value at the target key is itself an object,
the whole entry is dropped, nested content included, leaving the empty
object. -/
theorem scenario_c_drops_nested :
    clean_configuration_data
        (Json.obj [("requiresProject", Json.obj [("nested", Json.str "value")])]) =
      Json.obj [] :=
  rfl

/-- C8: the strip transformation is a total pure function of the JSON-like
tree — with fuel equal to the tree's height the fuel-indexed recursion
completes on every input and returns the cleaned tree (never `none`, the
out-of-fuel failure). -/
theorem strip_total (t : Json) :
    cleanFuel (Json.height t) t = some (clean_configuration_data t) :=
  cleanFuel_height (Json.height t) t (Nat.le_refl _)

/-- C9: the process exits with code 0 whenever the `try` block completes,
whatever leftover count the verification reports; it exits with code 1
whenever any step raises; in particular a failing row UPDATE aborts the run
through the single top-level handler — there is no per-row recovery. -/
theorem exit_code_contract (w : DBWorld) :
    (∀ updated remaining, mainResult w = Except.ok (updated, remaining) →
      exitCode w = 0) ∧
    (∀ e, mainResult w = Except.error e → exitCode w = 1) ∧
    (∀ rows e, w.fetchRows = Except.ok rows →
      runUpdates w.updateRow rows = Except.error e → exitCode w = 1) := by
  refine ⟨fun u r h => ?_, fun e h => ?_, fun rows e hf hr => ?_⟩
  · simp [exitCode, h]
  · simp [exitCode, h]
  · have hm : mainResult w = Except.error e := by simp [mainResult, hf, hr]
    simp [exitCode, hm]

/-- Witness for C9: a run that completes with 3 leftover rows exits 0; a run
whose row UPDATE raises exits 1. -/
theorem exit_code_contract_witness :
    exitCode worldOkLeftover = 0 ∧ exitCode worldFailUpdate = 1 :=
  ⟨(exit_code_contract worldOkLeftover).1 0 3 rfl,
   (exit_code_contract worldFailUpdate).2.2 [⟨"id-s", "S", inputSmall⟩]
     "SQL error" rfl rfl⟩

/-- C10: key matching is exact and case-sensitive — an entry whose key is
not the exact string `requiresProject` (for example `requiresProjectId` or
`RequiresProject`) is retained, with its value recursively transformed;
the object case of the transformer keeps precisely the entries `cleanFields`
keeps. -/
theorem strip_exact_key_match (k : String) (v : Json) (fields : List (String × Json))
    (hne : k ≠ "requiresProject") (hmem : (k, v) ∈ fields) :
    (k, clean_configuration_data v) ∈ cleanFields fields ∧
    clean_configuration_data (Json.obj fields) = Json.obj (cleanFields fields) :=
  ⟨mem_cleanFields_intro fields k v hmem hne, rfl⟩

/-- Witness for C10: keys that merely contain the target, or differ in case,
are retained. -/
theorem strip_exact_key_match_witness :
    ("requiresProjectId", clean_configuration_data (Json.bool true)) ∈
      cleanFields [("requiresProjectId", Json.bool true)] ∧
    ("RequiresProject", clean_configuration_data (Json.num 0)) ∈
      cleanFields [("RequiresProject", Json.num 0)] :=
  ⟨(strip_exact_key_match "requiresProjectId" (Json.bool true)
      [("requiresProjectId", Json.bool true)] (by decide)
      (List.mem_singleton.mpr rfl)).1,
   (strip_exact_key_match "RequiresProject" (Json.num 0)
      [("RequiresProject", Json.num 0)] (by decide)
      (List.mem_singleton.mpr rfl)).1⟩
